import Mathlib

/-!
# Verification of the `mk` key-value store (github.com/daicang/mk)

Shallow embedding of the storage engine: byte-string keys and values,
B+tree nodes (`pkg/tree/node.go`), the freelist (`freelist.go`), the
binary page codec (`pkg/page/page.go` + `Node.WritePage`/`Node.ReadPage`),
and the transaction layer (`pkg/tx.go`, `pkg/db.go`).

Go machine integers are modelled as `Nat`/`Int`; the only place where
32-bit truncation can matter (the `uint32` offset arithmetic of the page
codec) carries an explicit `% 2^32` via `u32`.  Go panics are modelled
as `Except String`.  Byte strings are `List Nat`.

Layout constants are those of linux/amd64, the platform the repository
targets: `unsafe.Sizeof(page.Page{}) = 32`, `unsafe.Sizeof(pairInfo{}) = 16`,
`unsafe.Sizeof(PageHeader{}) = 40` (the older `package mk` header used by
the freelist's `Size`), and `PageSize = 4096` (fixed by the spec).
-/

namespace Mk

/-! ## Keys and values (`pkg/kv/kv.go`) -/

/-- A byte string: Go `[]byte`. -/
abbrev Bytes := List Nat

/-- `bytes.Compare`: lexicographic comparison of byte strings. -/
def bytesCompare : Bytes → Bytes → Ordering
  | [], [] => .eq
  | [], _ :: _ => .lt
  | _ :: _, [] => .gt
  | a :: as, b :: bs =>
    if a < b then .lt
    else if b < a then .gt
    else bytesCompare as bs

/-- `Key.GreaterEqual`: `bytes.Compare(k, other) >= 0`. -/
def keyGreaterEqual (a b : Bytes) : Bool :=
  bytesCompare a b ≠ Ordering.lt

/-- `Key.EqualTo`: `bytes.Equal`. -/
def keyEqualTo (a b : Bytes) : Bool := a == b

/-! ## Go's `sort.Search`

`sort.Search(n, f)` performs binary search: `i, j := 0, n`; while `i < j`
it probes `h := (i+j)/2` and narrows to `[h+1, j)` or `[i, h)`.  It
returns the final `i`. -/

def goSearchAux (f : Nat → Bool) : Nat → Nat → Nat → Nat
  | 0, i, _ => i
  | fuel + 1, i, j =>
    if i < j then
      let m := (i + j) / 2
      if f m then goSearchAux f fuel i m else goSearchAux f fuel (m + 1) j
    else i

/-- `sort.Search(n, f)`.  The fuel `n + 1` dominates the number of
iterations (the width `j - i` starts at `n` and strictly shrinks), so
the fuel never runs out. -/
def goSearch (n : Nat) (f : Nat → Bool) : Nat := goSearchAux f (n + 1) 0 n

/-! ## B+tree nodes (`pkg/tree/node.go`)

`Node.Parent` is a Go pointer; within one transaction every cached node
is identified by the page id it was read from, so the embedding stores
the parent as that page id (`none` for the root).  A parent freshly
created by a root split has no page yet (`Index = 0`); it is keyed by
`0`, which never collides with a real node page (page 0 is the meta
page).  `Node.Key` is a Go slice that can be `nil`; `none` models `nil`. -/

/-- tree node constants (`pkg/tree/node.go`). -/
def minKeys : Nat := 2
def maxKeys : Nat := 4
/-- `page.PageSize` (fixed 4096 per the spec). -/
def pageSize : Nat := 4096
/-- `page.HeaderSize = unsafe.Sizeof(page.Page{})` on linux/amd64. -/
def headerSize : Nat := 32
/-- `page.PairInfoSize = unsafe.Sizeof(pairInfo{})`. -/
def pairInfoSize : Nat := 16
/-- `splitThreshold = int(float64(page.PageSize) * 0.5)`. -/
def splitThreshold : Nat := 2048
/-- `underfillThreshold = int(float64(page.PageSize) * 0.25)`. -/
def underfillThreshold : Nat := 1024

structure Node where
  index : Nat := 0
  isLeaf : Bool := false
  balanced : Bool := false
  spilled : Bool := false
  key : Option Bytes := none
  parent : Option Nat := none
  keys : List Bytes := []
  values : List Bytes := []
  cids : List Nat := []
  deriving Repr, DecidableEq

def Node.keyCount (n : Node) : Nat := n.keys.length

/-- `Node.GetKeyAt` (callers establish the bound first). -/
def Node.getKeyAt (n : Node) (i : Nat) : Bytes := n.keys.getD i []

/-- `Node.Search`: binary search, returns `(found, first equal-or-larger index)`. -/
def Node.search (n : Node) (key : Bytes) : Bool × Nat :=
  let i := goSearch n.keys.length (fun i => keyGreaterEqual (n.keys.getD i []) key)
  if i < n.keys.length ∧ keyEqualTo key (n.getKeyAt i) then (true, i) else (false, i)

/-- `Node.Size`: serialized size
`HeaderSize + PairInfoSize·count + Σ (key len + value len if leaf)`. -/
def Node.size (n : Node) : Nat :=
  headerSize + pairInfoSize * n.keyCount +
    ((List.range n.keys.length).map
      (fun i => (n.keys.getD i []).length +
        if n.isLeaf then (n.values.getD i []).length else 0)).sum

/-- `Node.Underfill`: `KeyCount() < minKeys || Size() < underfillThreshold`. -/
def Node.underfill (n : Node) : Bool :=
  n.keyCount < minKeys ∨ n.size < underfillThreshold

/-- `Node.Overfill`: `KeyCount() > maxKeys && Size() > PageSize`. -/
def Node.overfill (n : Node) : Bool :=
  n.keyCount > maxKeys ∧ n.size > pageSize

/-- `isSplitPoint(i, size)`: `i >= minKeys && size >= splitThreshold`. -/
def isSplitPoint (i size : Nat) : Bool := i ≥ minKeys ∧ size ≥ splitThreshold

/-- The split-point search loop of `splitTwo`: walks the keys
accumulating the simulated serialized size; `splitIndex` stays `0`
when the loop never fires. -/
def Node.findSplitIndex (n : Node) : Nat := go n.keys 0 headerSize
where
  go : List Bytes → Nat → Nat → Nat
    | [], _, _ => 0
    | k :: rest, i, size =>
      let size := size + pairInfoSize + k.length +
        (if n.isLeaf then (n.values.getD i []).length else 0)
      if isSplitPoint i size then i else go rest (i + 1) size

/-- `Node.splitTwo`: splits an overfilled node in two.  Returns
`none` when the node does not overfill; otherwise
`(left, right, newParent?)` where `left` is the mutated receiver,
`right` the new sibling, and `newParent?` the parent node freshly
created when the receiver was the root. -/
def Node.splitTwoF (n : Node) : Option (Node × Node × Option Node) :=
  if ¬n.overfill then none
  else
    let si := n.findSplitIndex
    -- If it's root, prepare a new parent (keyed by page id 0).
    let newParent : Option Node :=
      if n.parent = none then
        some { keys := [n.key.getD []], cids := [n.index] }
      else none
    let parentRef : Option Nat := if n.parent = none then some 0 else n.parent
    let left : Node :=
      { n with parent := parentRef,
               keys := n.keys.take si,
               values := if n.isLeaf then n.values.take si else n.values,
               cids := if n.isLeaf then n.cids else n.cids.take si }
    let right : Node :=
      { isLeaf := n.isLeaf, parent := parentRef,
        keys := n.keys.drop si,
        values := if n.isLeaf then n.values.drop si else [],
        cids := if n.isLeaf then [] else n.cids.drop si }
    some (left, right, newParent)

/-- The full chain of siblings produced by repeatedly applying
`splitTwo` (the fuel is bounded by the key count; each `splitTwo`
strictly reduces the right remainder's key count). -/
def Node.splitChain : Nat → Node → List Node × Node × Option Node
  | 0, n => ([], n, none)
  | fuel + 1, n =>
    match n.splitTwoF with
    | none => ([], n, none)
    | some (left, right, newPar) =>
      let (rest, last, newPar') := right.splitChain fuel
      (left :: rest, last, newPar <|> newPar')

/-- `Node.Split`: the list returned by the source's loop
(`nodes = append(nodes, node); node = next`).  Because the final chain
element is appended only when a further `splitTwo` succeeds, the last
sibling is never part of the returned list. -/
def Node.split (n : Node) : List Node :=
  (n.splitChain (n.keys.length + 1)).1

/-! ## Freelist allocation (`freelist.go`, `Freelist.Allocate`)

`f.ids` is the ascending list of free page ids (Go `[]int`).  The scan
keeps `startID`/`lastID`, resetting the contiguous run at the first
element and whenever `currentID != lastID+1`; on `currentID-startID+1 == n`
it removes `f.ids[i+1-n : i+1]` and returns `startID`. -/

def flAllocGo (ids : List Int) (n : Nat) :
    List Int → Nat → Int → Int → Option (Int × List Int)
  | [], _, _, _ => none
  | currentID :: rest, i, lastID, startID =>
    -- for first page and discontinuous page, recount
    let startID := if i = 0 ∨ currentID ≠ lastID + 1 then currentID else startID
    if currentID - startID + 1 = (n : Int) then
      -- Found n continuous pages, take out from ids
      some (startID, ids.take (i + 1 - n) ++ ids.drop (i + 1))
    else
      flAllocGo ids n rest (i + 1) currentID startID

/-- `Freelist.Allocate(n)`: `(start, ok)` modelled as `Option`. -/
def flAllocate (ids : List Int) (n : Nat) : Option (Int × List Int) :=
  flAllocGo ids n ids 0 0 0

/-- Start index of the contiguous run (successive ids differing by 1)
that ends at position `i` — the specification-level counterpart of the
loop's `startID` reset rule. -/
def runStart (ids : List Int) : Nat → Nat
  | 0 => 0
  | i + 1 => if ids.getD (i + 1) 0 = ids.getD i 0 + 1 then runStart ids i else i + 1

/-- The contiguous run ending at position `i` has length exactly `n`:
this is the position at which the scan's counter reaches `n`. -/
def firesAt (ids : List Int) (n : Nat) (i : Nat) : Prop :=
  runStart ids i + n = i + 1

instance (ids : List Int) (n i : Nat) : Decidable (firesAt ids n i) := by
  unfold firesAt; infer_instance

/-! ## The tree view of the read/write path (`Tx.Get`, `Tx.Set`, `Tx.getChildAt`)

`Tx.Get`/`Tx.Set` descend from the root through `tx.getChildAt`, which
resolves a child page id to its (lazily decoded, cached) node.  Decoding
is pure — pages are immutable during the descent — so the reachable
nodes form a tree and the descent is embedded on that tree.  Go panics
(`Invalid child index`, index out of range, …) appear as `Except.error`;
the loop is driven by fuel (the tree height bounds the iterations). -/

/-- `Node.Search` as a function of the key list alone (shared between
the node embedding and the tree view). -/
def searchKeys (keys : List Bytes) (key : Bytes) : Bool × Nat :=
  let i := goSearch keys.length (fun i => keyGreaterEqual (keys.getD i []) key)
  if i < keys.length ∧ keyEqualTo key (keys.getD i []) then (true, i) else (false, i)

inductive BTree where
  | leaf (keys : List Bytes) (values : List Bytes) (balanced spilled : Bool)
  | internal (keys : List Bytes) (children : List BTree) (balanced spilled : Bool)

/-- `Tx.Get` (`pkg/tx.go:221`): descend picking the child at the
`Search` index, return the leaf's value at a matching index.
`tx.getChildAt` panics when the index reaches `KeyCount`. -/
def btGet : Nat → BTree → Bytes → Except String (Bool × Bytes)
  | 0, _, _ => .error "out of fuel"
  | _ + 1, .leaf keys values _ _, key =>
    let (found, i) := searchKeys keys key
    if found then
      match values.get? i with
      | some v => .ok (true, v)
      | none => .error "index out of range"
    else .ok (false, [])
  | fuel + 1, .internal keys children _ _, key =>
    let (_, i) := searchKeys keys key
    if i < keys.length then
      match children.get? i with
      | some c => btGet fuel c key
      | none => .error "index out of range"
    else .error "Invalid child index"

/-- `Tx.Set` (`pkg/tx.go:235`): descend as in `Get`; at the leaf either
overwrite the value in place (`SetValueAt`) returning the old value, or
clear `balanced` and insert at the search position.  No size validation
of key or value is performed anywhere on this path. -/
def btSet : Nat → BTree → Bytes → Bytes → Except String ((Bool × Bytes) × BTree)
  | 0, _, _, _ => .error "out of fuel"
  | _ + 1, .leaf keys values bal sp, key, value =>
    let (found, i) := searchKeys keys key
    if found then
      match values.get? i with
      | some old => .ok ((true, old), .leaf keys (values.set i value) bal sp)
      | none => .error "index out of range"
    else
      if i > keys.length then .error "Index out of bound"
      else .ok ((false, []),
        .leaf (keys.insertIdx i key) (values.insertIdx i value) false sp)
  | fuel + 1, .internal keys children bal sp, key, value =>
    let (_, i) := searchKeys keys key
    if i < keys.length then
      match children.get? i with
      | some c =>
        (btSet fuel c key value).map
          (fun (res, c') => (res, .internal keys (children.set i c') bal sp))
      | none => .error "index out of range"
    else .error "Invalid child index"

/-- `MaxKeyBytes` (`pkg/common.go`): declared maximum key size, 1 MiB. -/
def maxKeyBytes : Nat := 2 ^ 20
/-- `MaxValueBytes` (`pkg/common.go`): declared maximum value size, 1 GiB. -/
def maxValueBytes : Nat := 2 ^ 30

/-- Specification-side: the subtree at a child-index path. -/
def navigate : BTree → List Nat → Option BTree
  | t, [] => some t
  | .internal _ children _ _, i :: p =>
    match children.get? i with
    | some c => navigate c p
    | none => none
  | .leaf .., _ :: _ => none

/-- Specification-side: replace the subtree at a child-index path,
leaving every other node untouched. -/
def replaceAt : BTree → List Nat → BTree → BTree
  | _, [], r => r
  | .internal keys children b s, i :: p, r =>
    match children.get? i with
    | some c => .internal keys (children.set i (replaceAt c p r)) b s
    | none => .internal keys children b s
  | t, _ :: _, _ => t

/-! ## Byte-level page codec (`pkg/page/page.go`, `Node.WritePage`, `Node.ReadPage`)

A `page.Page`'s data area holds the `pairInfo` slot table (16 bytes per
slot, starting at offset 0 of the data area) followed by the packed
key/value bytes.  `Node.WritePage` starts the byte cursor at
`count·PairInfoSize`, i.e. right after the slot table, so slot writes
and byte writes never overlap; the embedding therefore keeps the slot
table (`slots`) and the byte region (`data`, indexed by offset from the
start of the data area) as two fields of one page.  All offset and size
arithmetic is Go `uint32`: `u32` applies the truncation. -/

def u32 (x : Nat) : Nat := x % 2 ^ 32

/-- `pairInfo`: `(offset, keySize, valueSize, childID)`, all 32-bit. -/
structure PairInfo where
  offset : Nat := 0
  keySize : Nat := 0
  valueSize : Nat := 0
  childID : Nat := 0
  deriving Repr, DecidableEq

structure BPage where
  overflow : Nat := 0
  count : Nat := 0
  index : Nat := 0
  flags : Nat := 0
  slots : Nat → PairInfo := fun _ => {}
  data : Nat → Nat := fun _ => 0

/-- A freshly allocated (zeroed) page. -/
def blankPage (idx : Nat) : BPage := { index := idx }

def BPage.isLeafP (p : BPage) : Bool := (p.flags &&& 8) != 0
def BPage.isInternalP (p : BPage) : Bool := (p.flags &&& 4) != 0

/-- `copy(buf[off:], src)`: write `src` into the byte region at `off`. -/
def copyBytes (d : Nat → Nat) (off : Nat) (src : List Nat) : Nat → Nat :=
  fun a => if off ≤ a ∧ a < off + src.length then src.getD (a - off) 0 else d a

/-- `Page.SetPairInfo(i, ks, vs, cid, offset)`: fields not written keep
their previous contents (the struct lives inside the page memory). -/
def BPage.setPairInfo (p : BPage) (i ks vs cid off : Nat) : BPage :=
  let s := p.slots i
  let s' : PairInfo :=
    { offset := off, keySize := ks,
      valueSize := if p.isLeafP then vs else s.valueSize,
      childID := if p.isLeafP then s.childID else cid }
  { p with slots := fun j => if j = i then s' else p.slots j }

/-- `Page.GetKeyAt(i)`. -/
def BPage.getKeyAt (p : BPage) (i : Nat) : Bytes :=
  (List.range (p.slots i).keySize).map (fun j => p.data ((p.slots i).offset + j))

/-- `Page.GetValueAt(i)`: the value bytes follow the key bytes.
(The `WrongPageKind` panic on internal pages is omitted: `ReadPage`
only calls this after testing `IsLeaf`.) -/
def BPage.getValueAt (p : BPage) (i : Nat) : Bytes :=
  (List.range (p.slots i).valueSize).map
    (fun j => p.data ((p.slots i).offset + (p.slots i).keySize + j))

/-- `Page.GetChildPgid(i)`. -/
def BPage.getChildPgid (p : BPage) (i : Nat) : Nat := (p.slots i).childID

/-- The leaf loop of `Node.WritePage`: for each pair, write the slot,
copy key then value at the running offset, advance the offset. -/
def writeLeafLoop : List (Bytes × Bytes) → Nat → Nat → BPage → BPage
  | [], _, _, p => p
  | (k, v) :: rest, i, off, p =>
    let p := p.setPairInfo i (u32 k.length) (u32 v.length) 0 off
    let p := { p with data := copyBytes p.data off k }
    let p := { p with data := copyBytes p.data (off + k.length) v }
    writeLeafLoop rest (i + 1) (u32 (off + u32 k.length + u32 v.length)) p

/-- The internal-node loop of `Node.WritePage`: write the slot with the
child id, copy the key, advance the offset. -/
def writeInternalLoop : List (Bytes × Nat) → Nat → Nat → BPage → BPage
  | [], _, _, p => p
  | (k, cid) :: rest, i, off, p =>
    let p := p.setPairInfo i (u32 k.length) 0 (u32 cid) off
    let p := { p with data := copyBytes p.data off k }
    writeInternalLoop rest (i + 1) (u32 (off + u32 k.length)) p

/-- `Node.WritePage`: set `Count`, set the `FlagLeaf`/`FlagInternal`
bit, then run the per-pair loop starting at `count·PairInfoSize`
(`n.Values[i]`/`n.GetChildID(i)` are paired with the keys; on valid
nodes the lists have equal length). -/
def nodeWriteBPage (n : Node) (p : BPage) : BPage :=
  let off := u32 (n.keys.length * pairInfoSize)
  let p := { p with count := n.keys.length }
  if n.isLeaf then
    let p := { p with flags := p.flags ||| 8 }
    writeLeafLoop (n.keys.zip n.values) 0 off p
  else
    let p := { p with flags := p.flags ||| 4 }
    writeInternalLoop (n.keys.zip n.cids) 0 off p

/-- `Node.ReadPage`: decode `Count` records from the page into a fresh
node (`&Node{Parent: parent}`). -/
def nodeReadBPage (p : BPage) (parent : Option Nat) : Node :=
  let keys := (List.range p.count).map p.getKeyAt
  { index := p.index, isLeaf := p.isLeafP, parent := parent,
    keys := keys,
    values := if p.isLeafP then (List.range p.count).map p.getValueAt else [],
    cids := if p.isLeafP then [] else (List.range p.count).map p.getChildPgid,
    key := if keys.length > 0 then some (keys.getD 0 []) else none,
    balanced := false, spilled := false }


/-- Total packed byte size of the leaf pairs (specification side). -/
def leafPayload (pairs : List (Bytes × Bytes)) : Nat :=
  (pairs.map (fun q => q.1.length + q.2.length)).sum

/-- Total packed byte size of the internal pairs (keys only). -/
def internalPayload (pairs : List (Bytes × Nat)) : Nat :=
  (pairs.map (fun q => q.1.length)).sum

/-! ## Transaction and database layer (`pkg/tx.go`, `pkg/db.go`)

The file and the (read-only, `MAP_SHARED`) memory map show the same
bytes, so both are one page store `pages : List (Nat × MPage)`.  Pages
are kept in decoded, structured form (`PContent`); the byte-exact codec
is verified separately above.  `db.meta` is a pointer into mmap page 0,
so every read of it decodes the current page 0.  Nodes are identified
by the page id they were cached under (`tx.nodes`); a parent created by
a root split, which has no page yet (`Index = 0`), is cached under key
`0` (never a real node page).  Go map iteration order is modelled as
ascending page id.  Panics and I/O failures are `Except.error`; the
disk syscalls issued by `Tx.write` are recorded as `Ev` events. -/

inductive PContent where
  | blankC
  | metaC (magic totalPages freelistPage rootPage : Nat)
  | freelistC (ids : List Int)
  | leafC (pairs : List (Bytes × Bytes))
  | internalC (pairs : List (Bytes × Nat))
  deriving Repr, DecidableEq

structure MPage where
  index : Nat := 0
  overflow : Nat := 0
  flags : Nat := 0
  count : Nat := 0
  content : PContent := .blankC
  deriving Repr, DecidableEq

/-- Page flag bits. -/
def flagMeta : Nat := 1
def flagFreelist : Nat := 2
def flagInternal : Nat := 4
def flagLeaf : Nat := 8

def MPage.isMetaM (p : MPage) : Bool := (p.flags &&& flagMeta) != 0
def MPage.isFreelistM (p : MPage) : Bool := (p.flags &&& flagFreelist) != 0
def MPage.isLeafM (p : MPage) : Bool := (p.flags &&& flagLeaf) != 0

structure MMeta where
  magic : Nat := 0
  totalPages : Nat := 0
  freelistPage : Nat := 0
  rootPage : Nat := 0
  deriving Repr, DecidableEq

/-- `Magic` (`pkg/db.go`). -/
def magicConst : Nat := 0x20202021
/-- `MinMapBytes` = 128 KiB. -/
def minMapBytes : Nat := 2 ^ 17
/-- `MaxMapBytes` = 16 GiB. -/
def maxMapBytes : Nat := 2 ^ 34
/-- `MmapStep` = 1 GiB. -/
def mmapStep : Nat := 2 ^ 30
/-- `HeaderSize` of the `package mk` `PageHeader` (`unsafe.Sizeof = 40`
on linux/amd64), used by `Freelist.Size`. -/
def mkHeaderSize : Nat := 40

/-- Disk events issued through the file descriptor. -/
inductive Ev where
  | writeAt (pos size : Nat)
  | fsync
  deriving Repr, DecidableEq

/-- Association-list helpers for the page stores and node caches. -/
def alookup {α : Type} (l : List (Nat × α)) (k : Nat) : Option α :=
  (l.find? (fun e => e.1 == k)).map (·.2)

def aset {α : Type} (l : List (Nat × α)) (k : Nat) (v : α) : List (Nat × α) :=
  if (l.find? (fun e => e.1 == k)).isSome then
    l.map (fun e => if e.1 = k then (k, v) else e)
  else l ++ [(k, v)]

def adel {α : Type} (l : List (Nat × α)) (k : Nat) : List (Nat × α) :=
  l.filter (fun e => e.1 ≠ k)

structure TxState where
  id : Nat := 0
  writable : Bool := false
  meta : MMeta := {}
  rootPg : Nat := 0
  nodes : List (Nat × Node) := []
  dirty : List (Nat × MPage) := []
  deriving Repr, DecidableEq

structure DBState where
  pages : List (Nat × MPage) := []
  fileBytes : Nat := 0
  mmapSize : Nat := 0
  freeIds : List Int := []
  txFreed : List Int := []
  lastTxID : Nat := 0
  wtx : Option TxState := none
  deriving Repr, DecidableEq

/-- `pageMeta`: reinterpret a meta page's data area. -/
def pageMetaM (p : MPage) : Except String MMeta :=
  if ¬p.isMetaM then .error "not meta page"
  else match p.content with
    | .metaC magic total fl root => .ok ⟨magic, total, fl, root⟩
    | _ => .error "corrupt meta page"

/-- `DB.getPage`: read a page from the memory map. -/
def dbGetPage (db : DBState) (id : Nat) : Except String MPage :=
  match alookup db.pages id with
  | some p => .ok p
  | none => .error "page fault"

/-- `db.meta`: the pointer into mmap page 0. -/
def dbMeta (db : DBState) : Except String MMeta := do
  let p0 ← dbGetPage db 0
  pageMetaM p0

/-! ### Freelist (`freelist.go`) continued: the page-level operations -/

/-- `Freelist.Add(p)`: quarantine `p.Index .. p.Index+p.Overflow`. -/
def flAdd (txFreed : List Int) (p : MPage) : Except String (List Int) :=
  if p.index = 0 then .error "Page already freed"
  else .ok (txFreed ++ (List.range (p.overflow + 1)).map (fun i => ((p.index + i : Nat) : Int)))

/-- Two-finger `merge(a, b)` of sorted id lists. -/
def flMergeGo : List Int → List Int → List Int
  | [], b => b
  | a, [] => a
  | x :: xs, y :: ys =>
    if x < y then x :: flMergeGo xs (y :: ys) else y :: flMergeGo (x :: xs) ys

def flMerge (a b : List Int) : List Int :=
  match a, b with
  | [], b => b
  | a, [] => a
  | _, _ => flMergeGo a b

/-- `sort.Sort(ints)` (insertion sort; only the sortedness matters). -/
def intsInsert (x : Int) : List Int → List Int
  | [] => [x]
  | y :: ys => if x ≤ y then x :: y :: ys else y :: intsInsert x ys

def intsSort (l : List Int) : List Int := l.foldr intsInsert []

/-- `Freelist.Release`: merge the quarantined ids into the free list. -/
def flRelease (ids txFreed : List Int) : List Int × List Int :=
  (flMerge ids (intsSort txFreed), [])

/-- `Freelist.Size`: bytes needed to serialize the free list. -/
def flSize (ids : List Int) : Nat := mkHeaderSize + 4 * ids.length

/-- `Freelist.WritePage`. -/
def flWritePage (ids : List Int) (p : MPage) : MPage :=
  { p with flags := p.flags ||| flagFreelist, count := ids.length,
           content := .freelistC ids }

/-- `Freelist.ReadPage`: append `Count` ids from the page. -/
def flReadPage (p : MPage) (ids : List Int) : Except String (List Int) :=
  if ¬p.isFreelistM then .error "page type mismatch"
  else match p.content with
    | .freelistC l => .ok (ids ++ (List.range p.count).map (fun i => l.getD i 0))
    | _ => .ok (ids ++ (List.range p.count).map (fun _ => 0))

/-! ### Structured node codec (the pipeline counterpart of the byte codec) -/

def mpGetKeyAt (p : MPage) (i : Nat) : Bytes :=
  match p.content with
  | .leafC pairs => (pairs.getD i ([], [])).1
  | .internalC pairs => (pairs.getD i ([], 0)).1
  | _ => []

def mpGetValueAt (p : MPage) (i : Nat) : Bytes :=
  match p.content with
  | .leafC pairs => (pairs.getD i ([], [])).2
  | _ => []

def mpGetChildPgid (p : MPage) (i : Nat) : Nat :=
  match p.content with
  | .internalC pairs => (pairs.getD i ([], 0)).2
  | _ => 0

/-- `Node.ReadPage` on structured pages. -/
def nodeReadMPage (p : MPage) (parent : Option Nat) : Node :=
  let keys := (List.range p.count).map (mpGetKeyAt p)
  { index := p.index, isLeaf := p.isLeafM, parent := parent,
    keys := keys,
    values := if p.isLeafM then (List.range p.count).map (mpGetValueAt p) else [],
    cids := if p.isLeafM then [] else (List.range p.count).map (mpGetChildPgid p),
    key := if keys.length > 0 then some (keys.getD 0 []) else none,
    balanced := false, spilled := false }

/-- `Node.WritePage` on structured pages. -/
def nodeWriteMPage (n : Node) (p : MPage) : MPage :=
  if n.isLeaf then
    { p with count := n.keys.length, flags := p.flags ||| flagLeaf,
             content := .leafC (n.keys.zip n.values) }
  else
    { p with count := n.keys.length, flags := p.flags ||| flagInternal,
             content := .internalC (n.keys.zip n.cids) }

/-! ### Node accessors with their panics -/

/-- `Node.RemoveKeyChildAt`. -/
def removeKeyChildAt (n : Node) (i : Nat) : Except String Node :=
  if n.isLeaf then .error "Internal-node-only operation"
  else if i ≥ n.cids.length then .error "Index out of bound"
  else if i ≥ n.keys.length then .error "index out of range"
  else .ok { n with keys := n.keys.eraseIdx i, cids := n.cids.eraseIdx i }

/-- `Node.InsertKeyChildAt`. -/
def insertKeyChildAt (n : Node) (i : Nat) (key : Bytes) (pid : Nat) : Except String Node :=
  if n.isLeaf then .error "Internal-only operation"
  else if i > n.keyCount then .error "Index out of bound"
  else .ok { n with keys := n.keys.insertIdx i key, cids := n.cids.insertIdx i pid }

/-! ### Transaction plumbing -/

/-- `tx.getPage`: dirty table first, then the memory map. -/
def txGetPage (db : DBState) (tx : TxState) (id : Nat) : Except String MPage :=
  match alookup tx.dirty id with
  | some p => .ok p
  | none => dbGetPage db id

/-- `tx.getNode`: node cache first, else decode and cache. -/
def txGetNode (db : DBState) (tx : TxState) (id : Nat) (parent : Option Nat) :
    Except String (TxState × Node) :=
  match alookup tx.nodes id with
  | some n => .ok (tx, n)
  | none => do
    let p ← txGetPage db tx id
    let n := nodeReadMPage p parent
    .ok ({ tx with nodes := aset tx.nodes id n }, n)

/-- `tx.getChildAt(n, i)`: bounds panic, then `Node.GetChildID` (which
panics on a leaf), then `tx.getNode`. -/
def txGetChildAt (db : DBState) (tx : TxState) (n : Node) (i : Nat) :
    Except String (TxState × Node) :=
  if i ≥ n.keyCount then .error "Invalid child index"
  else if n.isLeaf then .error "get child at leaf node"
  else match n.cids.get? i with
    | some cid => txGetNode db tx cid (some n.index)
    | none => .error "index out of range"

/-- `roundMmapSize`: double up to 1 GiB, then grow by 1 GiB steps,
capped at `MaxMapBytes`. -/
def roundMmapSize (size : Nat) : Nat :=
  if size < 2 ^ 30 then
    match (List.range' 1 30).find? (fun i => size < 2 ^ i) with
    | some i => 2 ^ i
    | none => size
  else
    let size := size + mmapStep
    let size := size - size % mmapStep
    if size > maxMapBytes then maxMapBytes else size

/-- `db.mmap(sz)`: stat the file, round the size, remap.  (The
`syscall.Mmap` failure path and `Node.Dereference` of the live writable
root are not modelled; the map is the page store itself.) -/
def dbMmap (db : DBState) (sz : Nat) : DBState :=
  let sz := if db.fileBytes > sz then db.fileBytes else sz
  { db with mmapSize := roundMmapSize sz }

/-- `db.allocate(count)` (`pkg/db.go:505`): freelist first, else claim
headroom at `wtx.meta.totalPages` (the writable transaction's meta,
passed and returned explicitly) and grow the mmap if needed. -/
def dbAllocate (db : DBState) (meta : MMeta) (count : Nat) :
    DBState × MMeta × MPage :=
  match flAllocate db.freeIds count with
  | some (id, rest) =>
    ({ db with freeIds := rest }, meta,
      { index := id.toNat, overflow := count - 1 })
  | none =>
    let idx := meta.totalPages
    let meta := { meta with totalPages := meta.totalPages + count }
    let wantBytes := meta.totalPages * pageSize
    let db := if wantBytes > db.mmapSize then dbMmap db wantBytes else db
    (db, meta, { index := idx, overflow := count - 1 })

/-- `tx.allocate(count)`: read-only panic, delegate to the DB, register
the fresh page in the dirty table. -/
def txAllocate (db : DBState) (tx : TxState) (count : Nat) :
    Except String (DBState × TxState × MPage) :=
  if ¬tx.writable then .error "Read only tx can't allocate"
  else
    let (db, meta, p) := dbAllocate db tx.meta count
    .ok (db, { tx with meta := meta, dirty := aset tx.dirty p.index p }, p)

/-- `tx.freeNode(n)`: drop the node from the caches, then hand its page
(read after the dirty-table delete, hence from the mmap) to the
freelist unless it was never mapped. -/
def txFreeNode (db : DBState) (tx : TxState) (n : Node) :
    Except String (DBState × TxState) := do
  let tx := { tx with nodes := adel tx.nodes n.index, dirty := adel tx.dirty n.index }
  if n.index ≠ 0 then
    let p ← txGetPage db tx n.index
    let txFreed ← flAdd db.txFreed p
    .ok ({ db with txFreed := txFreed }, tx)
  else .ok (db, tx)

/-- The reparent loops of `Tx.merge` (`tx.getChildAt(n, i).Parent = to`
for `i < n.KeyCount()`); the counter is the number of remaining
iterations.  On a leaf `n` with children to visit, `getChildAt` reaches
`Node.GetChildID`, which panics. -/
def reparentGo (db : DBState) (n : Node) (toPid : Nat) :
    Nat → TxState → Nat → Except String TxState
  | 0, tx, _ => .ok tx
  | rem + 1, tx, i => do
    let (tx, c) ← txGetChildAt db tx n i
    let tx := { tx with nodes := aset tx.nodes c.index { c with parent := some toPid } }
    reparentGo db n toPid rem tx (i + 1)

/-- `Tx.merge` (`pkg/tx.go:345`): bottom-up merge of underfilled nodes.
Fuel bounds the upward recursion `tx.merge(n.Parent)`. -/
def mergeVisit : Nat → DBState → TxState → Nat → Except String (DBState × TxState)
  | 0, _, _, _ => .error "out of fuel"
  | fuel + 1, db, tx, pid => do
    match alookup tx.nodes pid with
    | none => .error "node not cached"
    | some n =>
      if n.balanced then .ok (db, tx)
      else
        let n := { n with balanced := true }
        let tx := { tx with nodes := aset tx.nodes pid n }
        if ¬n.underfill then .ok (db, tx)
        else if n.parent = none then
          -- When root has only one child, merge with it
          if ¬n.isLeaf ∧ n.keyCount = 1 then do
            let (tx, child) ← txGetChildAt db tx n 0
            let n := { n with
              isLeaf := child.isLeaf
              keys := child.keys
              values := child.values
              cids := child.cids }
            let tx := { tx with nodes := aset tx.nodes pid n }
            -- Reparent grand children
            let tx ← reparentGo db n pid n.keyCount tx 0
            let (db, tx) ← txFreeNode db tx child
            .ok (db, tx)
          else .ok (db, tx)
        else
          match n.parent with
          | none => .error "unreachable"
          | some parPid =>
            if n.keyCount = 0 then do
              -- Remove empty node, also remove inode from parent
              match alookup tx.nodes parPid with
              | none => .error "parent not cached"
              | some par => do
                let (_, i) := searchKeys par.keys (n.key.getD [])
                let par ← removeKeyChildAt par i
                let tx := { tx with nodes := aset tx.nodes parPid par }
                let (db, tx) ← txFreeNode db tx n
                mergeVisit fuel db tx parPid
            else do
              match alookup tx.nodes parPid with
              | none => .error "parent not cached"
              | some par =>
                if par.keyCount < 2 then .error "Parent should have at least one child"
                else do
                  -- select (from, to): leftmost absorbs its right sibling,
                  -- otherwise the node is merged into its left sibling
                  let (tx, fromN, toN, fromIdx) ←
                    (if par.cids.getD 0 0 = n.index then do
                      let (tx, f) ← txGetChildAt db tx par 1
                      Except.ok (tx, f, n, 1)
                    else do
                      let (_, i) := searchKeys par.keys (n.key.getD [])
                      if i = 0 then Except.error "Invalid child index"
                      else do
                        let (tx, t) ← txGetChildAt db tx par (i - 1)
                        Except.ok (tx, n, t, i) :
                      Except String (TxState × Node × Node × Nat))
                  if fromN.isLeaf ≠ toN.isLeaf then
                    .error "Sibling nodes should have same type"
                  else do
                    -- Reparent from node child
                    let tx ← reparentGo db fromN toN.index fromN.keyCount tx 0
                    let toN := { toN with
                      keys := toN.keys ++ fromN.keys
                      values := toN.values ++ fromN.values
                      cids := toN.cids ++ fromN.cids }
                    let tx := { tx with nodes := aset tx.nodes toN.index toN }
                    match alookup tx.nodes parPid with
                    | none => .error "parent not cached"
                    | some par2 => do
                      let par2 ← removeKeyChildAt par2 fromIdx
                      let tx := { tx with nodes := aset tx.nodes parPid par2 }
                      let (db, tx) ← txFreeNode db tx fromN
                      mergeVisit fuel db tx parPid

/-- The loop body of `Tx.spillNode` over the nodes returned by
`Node.Split`; `isHead` marks the element that is the cached (mutated)
receiver, whose cache entry under `pid` tracks the mutations. -/
def spillList (db : DBState) (tx : TxState) (pid : Nat) :
    List Node → Bool → Except String (DBState × TxState × Bool)
  | [], _ => .ok (db, tx, true)
  | m :: rest, isHead => do
    -- When node has an old page, return it to the freelist
    let (db, tx, m) ←
      (if m.index ≠ 0 then do
        let p ← txGetPage db tx m.index
        let txFreed ← flAdd db.txFreed p
        Except.ok ({ db with txFreed := txFreed }, tx, { m with index := 0 })
      else Except.ok (db, tx, m) :
        Except String (DBState × TxState × Node))
    -- Allocate a fresh page (one more than needed, as the source does)
    let (db, tx, p) ← txAllocate db tx (m.size / pageSize + 1)
    let m := { m with index := p.index }
    let p := nodeWriteMPage m p
    let tx := { tx with dirty := aset tx.dirty p.index p }
    let m := { m with spilled := true }
    let m ←
      (if m.key = none then
        match m.keys with
        | [] => Except.error "index out of range"
        | k :: _ => Except.ok { m with key := some k }
      else Except.ok m : Except String Node)
    let tx := if isHead then { tx with nodes := aset tx.nodes pid m } else tx
    -- Insert new node to parent
    let tx ←
      (match m.parent with
      | none => Except.ok tx
      | some parPid =>
        match alookup tx.nodes parPid with
        | none => Except.error "parent not cached"
        | some par => do
          let (_, i) := searchKeys par.keys (m.key.getD [])
          let par ← insertKeyChildAt par i (m.key.getD []) m.index
          Except.ok { tx with nodes := aset tx.nodes parPid par } :
        Except String TxState)
    spillList db tx pid rest false

mutual

/-- `Tx.spillNode` (`pkg/tx.go:296`): top-down; spill the children
first, then split the node and write out the nodes `Split` returns. -/
def spillNode : Nat → DBState → TxState → Nat → Except String (DBState × TxState × Bool)
  | 0, _, _, _ => .error "out of fuel"
  | fuel + 1, db, tx, pid => do
    match alookup tx.nodes pid with
    | none => .error "node not cached"
    | some n =>
      if n.spilled then .ok (db, tx, true)
      else do
        let (db, tx, ok) ←
          if ¬n.isLeaf then spillChildren fuel db tx pid 0
          else pure (db, tx, true)
        if ¬ok then .ok (db, tx, false)
        else
          match alookup tx.nodes pid with
          | none => .error "node not cached"
          | some n =>
            let (chain, last, newPar) := n.splitChain (n.keys.length + 1)
            -- the receiver was truncated in place by the splits
            let tx := { tx with nodes := aset tx.nodes pid (chain.headD last) }
            let tx :=
              match newPar with
              | some par => { tx with nodes := aset tx.nodes 0 par }
              | none => tx
            spillList db tx pid chain true

/-- The child loop of `spillNode`; the parent's key count is re-read
each iteration (child spills insert into the parent). -/
def spillChildren : Nat → DBState → TxState → Nat → Nat → Except String (DBState × TxState × Bool)
  | 0, _, _, _, _ => .error "out of fuel"
  | fuel + 1, db, tx, pid, i => do
    match alookup tx.nodes pid with
    | none => .error "node not cached"
    | some n =>
      if i < n.keyCount then do
        let (tx, ch) ← txGetChildAt db tx n i
        let (db, tx, ok) ← spillNode fuel db tx ch.index
        if ok then spillChildren fuel db tx pid (i + 1) else .ok (db, tx, false)
      else .ok (db, tx, true)

end

/-- `Node.Root`: `r := n; for !n.IsRoot() { r = r.Parent }; return r` —
the loop condition tests the fixed receiver `n`, so for a non-root
receiver the walk runs past the root into a nil-pointer dereference. -/
def nodeRoot (tx : TxState) (pid : Nat) : Except String Nat :=
  match alookup tx.nodes pid with
  | none => .error "node not cached"
  | some n =>
    if n.parent = none then .ok pid
    else .error "nil pointer dereference in Node.Root"

/-- `Tx.Set` descent (`pkg/tx.go:235`). -/
def txSetGo : Nat → DBState → TxState → Nat → Bytes → Bytes →
    Except String (TxState × Bool × Bytes)
  | 0, _, _, _, _, _ => .error "out of fuel"
  | fuel + 1, db, tx, pid, key, value => do
    match alookup tx.nodes pid with
    | none => .error "node not cached"
    | some curr =>
      let (found, i) := searchKeys curr.keys key
      if curr.isLeaf then
        if found then
          match curr.values.get? i with
          | some old =>
            let curr := { curr with values := curr.values.set i value }
            .ok ({ tx with nodes := aset tx.nodes pid curr }, true, old)
          | none => .error "index out of range"
        else if i > curr.keyCount then .error "Index out of bound"
        else
          let curr := { curr with
            balanced := false
            keys := curr.keys.insertIdx i key
            values := curr.values.insertIdx i value }
          .ok ({ tx with nodes := aset tx.nodes pid curr }, false, [])
      else do
        let (tx, ch) ← txGetChildAt db tx curr i
        txSetGo fuel db tx ch.index key value

/-- `Tx.Set` on the database's writable transaction. -/
def txSetP (fuel : Nat) (db : DBState) (key value : Bytes) :
    Except String (DBState × Bool × Bytes) :=
  match db.wtx with
  | none => .error "nil transaction"
  | some tx =>
    if ¬tx.writable then .error "Readonly transaction"
    else do
      let (tx, found, old) ← txSetGo fuel db tx tx.rootPg key value
      .ok ({ db with wtx := some tx }, found, old)

/-- `Tx.Get` descent (`pkg/tx.go:221`). -/
def txGetGo : Nat → DBState → TxState → Nat → Bytes →
    Except String (TxState × Bool × Bytes)
  | 0, _, _, _, _ => .error "out of fuel"
  | fuel + 1, db, tx, pid, key => do
    match alookup tx.nodes pid with
    | none => .error "node not cached"
    | some curr =>
      if ¬curr.isLeaf then do
        let (_, i) := searchKeys curr.keys key
        let (tx, ch) ← txGetChildAt db tx curr i
        txGetGo fuel db tx ch.index key
      else
        let (found, i) := searchKeys curr.keys key
        if found then
          match curr.values.get? i with
          | some v => .ok (tx, true, v)
          | none => .error "index out of range"
        else .ok (tx, false, [])

/-- `NewWritable` (`pkg/tx.go:28`): fails (returns `false`) while
another writable transaction is live; otherwise bumps `lastTxID`,
copies the meta, caches the decoded root, installs itself as `db.wtx`. -/
def newWritable (db : DBState) : Except String (DBState × Bool) :=
  if db.wtx.isSome then .ok (db, false)
  else do
    let lastTxID := db.lastTxID + 1
    let m ← dbMeta db
    let rootPage ← dbGetPage db m.rootPage
    let root := nodeReadMPage rootPage none
    let tx : TxState :=
      { id := lastTxID, writable := true, meta := m, rootPg := m.rootPage,
        nodes := [(m.rootPage, root)], dirty := [] }
    .ok ({ db with lastTxID := lastTxID, wtx := some tx }, true)

/-- `NewReadOnlyTx` (`pkg/tx.go:60`). -/
def newReadOnly (db : DBState) : Except String (DBState × TxState) := do
  let lastTxID := db.lastTxID + 1
  let m ← dbMeta db
  let rootPage ← dbGetPage db m.rootPage
  let root := nodeReadMPage rootPage none
  let tx : TxState :=
    { id := lastTxID, writable := false, meta := m, rootPg := m.rootPage,
      nodes := [(m.rootPage, root)], dirty := [] }
  .ok ({ db with lastTxID := lastTxID }, tx)

/-- Insertion sort of pages by `Index` (`sort.Sort(pages)`). -/
def mpInsert (p : MPage) : List MPage → List MPage
  | [] => [p]
  | q :: qs => if p.index < q.index then p :: q :: qs else q :: mpInsert p qs

def sortPages (l : List MPage) : List MPage := l.foldr mpInsert []

def natInsert (x : Nat) : List Nat → List Nat
  | [] => [x]
  | y :: ys => if x ≤ y then x :: y :: ys else y :: natInsert x ys

def natSort (l : List Nat) : List Nat := l.foldr natInsert []

/-- `Tx.write` (`pkg/tx.go:153`): sort the dirty pages by page id and
`WriteAt` each at `Index·PageSize` for `(Overflow+1)·PageSize` bytes.
No `fsync` is issued and the meta page is not among the dirty pages.
(The subsequent zeroing loop touches only the discarded heap buffers of
single pages before returning them to the pool.) -/
def txWrite (db : DBState) (tx : TxState) : DBState × List Ev :=
  let pages := sortPages (tx.dirty.map (·.2))
  let evs := pages.map (fun p => Ev.writeAt (p.index * pageSize) ((p.overflow + 1) * pageSize))
  let db := pages.foldl
    (fun db p =>
      { db with pages := aset db.pages p.index p,
                fileBytes := max db.fileBytes
                  (p.index * pageSize + (p.overflow + 1) * pageSize) }) db
  (db, evs)

/-- The merge pass of `Commit` over the cached nodes (Go map iteration
modelled as ascending page order). -/
def mergePass (fuel : Nat) : DBState → TxState → List Nat → Except String (DBState × TxState)
  | db, tx, [] => .ok (db, tx)
  | db, tx, pid :: rest => do
    let (db, tx) ← mergeVisit fuel db tx pid
    mergePass fuel db tx rest

/-- `Tx.Commit` (`pkg/tx.go:98`): merge pass, spill pass, refresh the
root, free and reallocate the freelist page, write the dirty pages.
`close()` is a no-op: neither `db.meta` nor `db.wtx` is touched, the
meta page is never rewritten, and `freelist.Release` is never called. -/
def commit (fuel : Nat) (db : DBState) : Except String (DBState × Bool × List Ev) :=
  match db.wtx with
  | none => .error "nil transaction"
  | some tx =>
    if ¬tx.writable then .error "commit read-only tx"
    else do
      let pgids := natSort (tx.nodes.map (·.1))
      let (db, tx) ← mergePass fuel db tx pgids
      let (db, tx, ok) ← spillNode fuel db tx tx.rootPg
      if ¬ok then
        -- rollback: freelist.Rollback(); close()
        .ok ({ db with txFreed := [], wtx := some tx }, false, [])
      else do
        let rootPg ← nodeRoot tx tx.rootPg
        let tx := { tx with rootPg := rootPg }
        -- Free and reallocate freelist page (read through `db.getPage`)
        let fp ← dbGetPage db tx.meta.freelistPage
        let txFreed ← flAdd db.txFreed fp
        let db := { db with txFreed := txFreed }
        let (db, tx, p) ← txAllocate db tx (flSize db.freeIds)
        let p := flWritePage db.freeIds p
        let tx := { tx with
          dirty := aset tx.dirty p.index p
          meta := { tx.meta with freelistPage := p.index } }
        let (db, evs) := txWrite db tx
        .ok ({ db with wtx := some tx }, true, evs)

/-- The three-page skeleton written by `DB.initFile` (`pkg/db.go:458`):
meta (magic, freelist=1, root=2, total=3), empty freelist, empty leaf. -/
def skeletonPages : List (Nat × MPage) :=
  [(0, { index := 0, overflow := 0, flags := flagMeta, count := 0,
         content := .metaC magicConst 3 1 2 }),
   (1, { index := 1, flags := flagFreelist, content := .freelistC [] }),
   (2, { index := 2, flags := flagLeaf, content := .leafC [] })]

/-- The disk events of `initFile`: one three-page write, then `Sync`. -/
def initFileEvents : List Ev := [.writeAt 0 (3 * pageSize), .fsync]

/-- `Open` (`pkg/db.go:405`) on a fresh path: `initFile`, validate the
magic, mmap at `MinMapBytes`, load the freelist. -/
def dbOpen : Except String DBState := do
  let db0 : DBState := { pages := skeletonPages, fileBytes := 3 * pageSize }
  let m ← dbMeta db0
  if m.magic ≠ magicConst then .error "magic not match"
  else do
    let db := dbMmap db0 minMapBytes
    let flp ← dbGetPage db m.freelistPage
    let freeIds ← flReadPage flp []
    .ok { db with freeIds := freeIds }

/-! ## Concrete instances used by the claim theorems -/

/-- An overfilled leaf: five 1-byte keys and five 796-byte values,
serialized size `32 + 5·16 + 5·(1+796) = 4097 = PageSize + 1`. -/
def c3leaf : Node :=
  { index := 9, isLeaf := true, parent := some 7, key := some [0],
    keys := [[0], [1], [2], [3], [4]],
    values := [List.replicate 796 10, List.replicate 796 11, List.replicate 796 12,
               List.replicate 796 13, List.replicate 796 14] }

/-- Fresh DB; `set("a","1")`; `commit`; fresh reader; `get("a")`. -/
def scenSetCommitGet : Except String (Bool × Bool × Bool × Bytes) := do
  let db ← dbOpen
  let (db, okW) ← newWritable db
  let (db, _found, _old) ← txSetP 20 db [97] [49]
  let (db, okC, _evs) ← commit 20 db
  let (db, rtx) ← newReadOnly db
  let (_tx, found, v) ← txGetGo 20 db rtx rtx.rootPg [97]
  .ok (okW, okC, found, v)

/-- Fresh DB; `set("a","1")`; `commit`, keeping the disk-event trace. -/
def scenCommitEvents : Except String (Bool × List Ev) := do
  let db ← dbOpen
  let (db, _) ← newWritable db
  let (db, _, _) ← txSetP 20 db [97] [49]
  let (_db, okC, evs) ← commit 20 db
  .ok (okC, evs)

/-- Fresh DB; `begin_write`; `begin_write` (while open); `commit`;
`begin_write` (after the successful commit). -/
def scenTwoWriters : Except String (Bool × Bool × Bool × Bool) := do
  let db ← dbOpen
  let (db, ok1) ← newWritable db
  let (db, okDup) ← newWritable db
  let (db, okC, _) ← commit 20 db
  let (_db, ok2) ← newWritable db
  .ok (ok1, okDup, okC, ok2)

/-- A two-leaf tree cached by a writable transaction: internal root
(page 5) over leaves `{"a","b"}` (page 2) and `{"m"}` (page 3). -/
def leaf2 : Node :=
  { index := 2, isLeaf := true, parent := some 5, key := some [97],
    keys := [[97], [98]], values := [[49], [50]] }

def leaf3 : Node :=
  { index := 3, isLeaf := true, parent := some 5, key := some [109],
    keys := [[109]], values := [[51]] }

def par5 : Node :=
  { index := 5, isLeaf := false, parent := none, key := some [97],
    keys := [[97], [109]], cids := [2, 3] }

def tx6 : TxState :=
  { id := 1, writable := true, rootPg := 5,
    nodes := [(5, par5), (2, leaf2), (3, leaf3)] }

def db6 : DBState := {}

/-- A leaf that does not underfill (2 keys, size `1066 ≥ 1024`). -/
def nodeC6w : Node :=
  { index := 4, isLeaf := true, parent := some 5, key := some [1],
    keys := [[1], [2]],
    values := [List.replicate 500 7, List.replicate 500 8] }

def txC6w : TxState := { id := 1, writable := true, rootPg := 4, nodes := [(4, nodeC6w)] }

/-- An oversized key (1 MiB + 1) and value (1 GiB + 1). -/
def c7key : Bytes := List.replicate (2 ^ 20 + 1) 0
def c7val : Bytes := List.replicate (2 ^ 30 + 1) 0

/-- The committed tree for the `Get` totality claim: internal root with
separators `"a"`, `"m"` over two leaves. -/
def t9 : BTree :=
  .internal [[97], [109]]
    [.leaf [[97], [98]] [[49], [50]] false false,
     .leaf [[109]] [[51]] false false] false false

/-- The transaction state that `Tx.Set` can touch besides the tree:
its private meta and the dirty-page table. -/
structure TxView where
  root : BTree
  meta : MMeta := {}
  dirty : List (Nat × MPage) := []

/-- `Tx.Set` at the transaction level: only the tree is threaded; the
meta and the dirty table are not mentioned anywhere on the `Set` path. -/
def txViewSet (fuel : Nat) (tx : TxView) (key value : Bytes) :
    Except String ((Bool × Bytes) × TxView) :=
  (btSet fuel tx.root key value).map (fun r => (r.1, { tx with root := r.2 }))

/-- Concrete witness transaction: one root leaf `{"a" ↦ "1"}`. -/
def txC10 : TxView := { root := .leaf [[97]] [[49]] false false }


/-- Concrete witness node for the byte-codec round-trip. -/
def c8node : Node :=
  { index := 3, isLeaf := true, parent := some 1, key := some [1],
    keys := [[1], [2]], values := [[5], [6, 7]] }

/-! # Theorems -/

theorem runStart_succ (ids : List Int) (i : Nat) :
    runStart ids (i + 1) =
      if ids.getD (i + 1) 0 = ids.getD i 0 + 1 then runStart ids i else i + 1 := rfl

theorem runStart_le (ids : List Int) : ∀ i, runStart ids i ≤ i
  | 0 => le_refl 0
  | i + 1 => by
    rw [runStart_succ]
    split
    · exact le_trans (runStart_le ids i) (Nat.le_succ i)
    · exact le_refl _

/-- Along a contiguous run the id value grows with the index. -/
theorem getD_runStart (ids : List Int) :
    ∀ i, ids.getD i 0 = ids.getD (runStart ids i) 0 + ((i : Int) - (runStart ids i : Int))
  | 0 => by simp [runStart]
  | i + 1 => by
    rw [runStart_succ]
    split
    · next h =>
      have ih := getD_runStart ids i
      have hle := runStart_le ids i
      rw [h, ih]
      push_cast
      ring
    · simp

/-- The loop's value-based length check agrees with the index-based
run-length predicate. -/
theorem fire_check (ids : List Int) (n : Nat) (i : Nat) :
    (ids.getD i 0 - ids.getD (runStart ids i) 0 + 1 = (n : Int)) ↔ firesAt ids n i := by
  have h := getD_runStart ids i
  have hle := runStart_le ids i
  unfold firesAt
  constructor
  · intro hc
    rw [h] at hc
    omega
  · intro hf
    rw [h]
    omega

theorem list_getD_of_lt (ids : List Int) (i : Nat) (h : i < ids.length) :
    ids.getD i 0 = ids[i] := by
  simp [List.getD_eq_getElem?_getD, List.getElem?_eq_getElem h]

/-- One unfolding step of the allocation loop at position `i < ids.length`,
under the invariant tying `lastID`/`startID` to positions. -/
theorem flAllocGo_step (ids : List Int) (n : Nat) (i : Nat) (lastID startID : Int)
    (hi : i < ids.length)
    (hinv : i = 0 ∨ (lastID = ids.getD (i-1) 0 ∧ startID = ids.getD (runStart ids (i-1)) 0)) :
    flAllocGo ids n (ids.drop i) i lastID startID =
      if firesAt ids n i then
        some (ids.getD (runStart ids i) 0, ids.take (i + 1 - n) ++ ids.drop (i + 1))
      else
        flAllocGo ids n (ids.drop (i+1)) (i+1) (ids.getD i 0) (ids.getD (runStart ids i) 0) := by
  rw [List.drop_eq_getElem_cons hi]
  show flAllocGo ids n (ids[i] :: ids.drop (i+1)) i lastID startID = _
  have hgetD := list_getD_of_lt ids i hi
  have hstart : (if i = 0 ∨ ids[i] ≠ lastID + 1 then ids[i] else startID)
      = ids.getD (runStart ids i) 0 := by
    rcases hinv with h0 | ⟨hlast, hstartI⟩
    · subst h0
      rw [if_pos (Or.inl rfl)]
      exact hgetD.symm
    · by_cases hi0 : i = 0
      · subst hi0
        rw [if_pos (Or.inl rfl)]
        exact hgetD.symm
      · obtain ⟨i', rfl⟩ : ∃ i', i = i' + 1 := ⟨i - 1, by omega⟩
        simp only [Nat.add_sub_cancel] at hlast hstartI
        by_cases hcont : ids[i'+1] = lastID + 1
        · have hrs : runStart ids (i'+1) = runStart ids i' := by
            rw [runStart_succ, if_pos]
            rw [hgetD, hcont, hlast]
          have hcond : ¬(i' + 1 = 0 ∨ ids[i'+1] ≠ lastID + 1) := by
            push_neg
            exact ⟨Nat.succ_ne_zero i', hcont⟩
          rw [if_neg hcond, hrs]
          exact hstartI
        · have hrs : runStart ids (i'+1) = i' + 1 := by
            rw [runStart_succ, if_neg]
            rw [hgetD]
            intro hc
            exact hcont (by rw [hc, hlast])
          rw [if_pos (Or.inr hcont), hrs]
          exact hgetD.symm
  show (if ids[i] - (if i = 0 ∨ ids[i] ≠ lastID + 1 then ids[i] else startID) + 1 = (n : Int)
        then some ((if i = 0 ∨ ids[i] ≠ lastID + 1 then ids[i] else startID),
          ids.take (i + 1 - n) ++ ids.drop (i + 1))
        else flAllocGo ids n (ids.drop (i+1)) (i+1) ids[i]
          (if i = 0 ∨ ids[i] ≠ lastID + 1 then ids[i] else startID)) = _
  rw [hstart, ← hgetD]
  by_cases hf : firesAt ids n i
  · rw [if_pos ((fire_check ids n i).mpr hf), if_pos hf]
  · rw [if_neg (fun hc => hf ((fire_check ids n i).mp hc)), if_neg hf]

/-- Full behaviour of the allocation loop started at position `i`. -/
theorem flAllocGo_from (ids : List Int) (n : Nat) :
    ∀ m i (lastID startID : Int),
      ids.length - i = m →
      i ≤ ids.length →
      (i = 0 ∨ (lastID = ids.getD (i-1) 0 ∧ startID = ids.getD (runStart ids (i-1)) 0)) →
      ((∀ j, i ≤ j → j < ids.length → ¬ firesAt ids n j) →
        flAllocGo ids n (ids.drop i) i lastID startID = none)
      ∧ (∀ i₀, i ≤ i₀ → i₀ < ids.length → firesAt ids n i₀ →
          (∀ j, i ≤ j → j < i₀ → ¬ firesAt ids n j) →
          flAllocGo ids n (ids.drop i) i lastID startID =
            some (ids.getD (i₀ + 1 - n) 0, ids.take (i₀ + 1 - n) ++ ids.drop (i₀ + 1))) := by
  intro m
  induction m with
  | zero =>
    intro i lastID startID hm hle _
    have hdrop : ids.drop i = [] := List.drop_eq_nil_of_le (by omega)
    rw [hdrop]
    constructor
    · intro _
      rfl
    · intro i₀ h1 h2 _ _
      omega
  | succ m ih =>
    intro i lastID startID hm hle hinv
    have hi : i < ids.length := by omega
    rw [flAllocGo_step ids n i lastID startID hi hinv]
    have hinv' : i + 1 = 0 ∨ ((ids.getD i 0) = ids.getD ((i+1)-1) 0 ∧
        (ids.getD (runStart ids i) 0) = ids.getD (runStart ids ((i+1)-1)) 0) := by
      right
      simp
    have ihx := ih (i+1) (ids.getD i 0) (ids.getD (runStart ids i) 0) (by omega) (by omega) hinv'
    by_cases hf : firesAt ids n i
    · rw [if_pos hf]
      constructor
      · intro hnone
        exact absurd hf (hnone i le_rfl hi)
      · intro i₀ h1 h2 hf0 hmin
        have : i₀ = i := by
          by_contra hne
          exact hmin i le_rfl (by omega) hf
        subst this
        have hrs : runStart ids i₀ = i₀ + 1 - n := by
          have := runStart_le ids i₀
          unfold firesAt at hf0
          omega
        rw [hrs]
    · rw [if_neg hf]
      constructor
      · intro hnone
        exact ihx.1 (fun j hj1 hj2 => hnone j (by omega) hj2)
      · intro i₀ h1 h2 hf0 hmin
        have hne : i₀ ≠ i := fun hc => hf (hc ▸ hf0)
        exact ihx.2 i₀ (by omega) h2 hf0 (fun j hj1 hj2 => hmin j (by omega) hj2)

theorem underfill_balanced (n : Node) :
    ({ n with balanced := true } : Node).underfill = n.underfill := rfl


theorem getD_lt {α : Type} (l : List α) (d : α) (i : Nat) (h : i < l.length) :
    l.getD i d = l[i] := by
  simp [List.getD_eq_getElem?_getD, List.getElem?_eq_getElem h]

theorem u32_small {x : Nat} (h : x < 2 ^ 32) : u32 x = x := Nat.mod_eq_of_lt h

theorem map_getD_range (l : Bytes) :
    (List.range l.length).map (fun j => l.getD j 0) = l := by
  apply List.ext_getElem
  · simp
  · intro i h1 h2
    simp only [List.getElem_map, List.getElem_range]
    rw [getD_lt l 0 i (by simpa using h2)]

theorem writeLeafLoop_spec :
    ∀ (pairs : List (Bytes × Bytes)) (i0 off : Nat) (p : BPage),
      p.isLeafP = true →
      off + leafPayload pairs < 2 ^ 32 →
      (∀ idx, idx < i0 → (writeLeafLoop pairs i0 off p).slots idx = p.slots idx) ∧
      (∀ a, a < off → (writeLeafLoop pairs i0 off p).data a = p.data a) ∧
      ((writeLeafLoop pairs i0 off p).count = p.count ∧
        (writeLeafLoop pairs i0 off p).flags = p.flags ∧
        (writeLeafLoop pairs i0 off p).index = p.index) ∧
      (∀ j, (hj : j < pairs.length) →
        (writeLeafLoop pairs i0 off p).getKeyAt (i0 + j) = (pairs.get ⟨j, hj⟩).1 ∧
        (writeLeafLoop pairs i0 off p).getValueAt (i0 + j) = (pairs.get ⟨j, hj⟩).2)
  | [], i0, off, p, hleaf, hb => by
    refine ⟨fun _ _ => rfl, fun _ _ => rfl, ⟨rfl, rfl, rfl⟩, fun j hj => by simp at hj⟩
  | (k, v) :: rest, i0, off, p, hleaf, hb => by
    have hk32 : k.length < 2 ^ 32 := by
      simp [leafPayload] at hb
      omega
    have hv32 : v.length < 2 ^ 32 := by
      simp [leafPayload] at hb
      omega
    have hoff' : u32 (off + u32 k.length + u32 v.length) = off + k.length + v.length := by
      rw [u32_small hk32, u32_small hv32]
      apply u32_small
      simp [leafPayload] at hb
      omega
    set p1 := p.setPairInfo i0 (u32 k.length) (u32 v.length) 0 off with hp1
    set p2 : BPage := { p1 with data := copyBytes p1.data off k } with hp2
    set p3 : BPage := { p2 with data := copyBytes p2.data (off + k.length) v } with hp3
    have hstep : writeLeafLoop ((k, v) :: rest) i0 off p =
        writeLeafLoop rest (i0 + 1) (u32 (off + u32 k.length + u32 v.length)) p3 := rfl
    have hleaf3 : p3.isLeafP = true := hleaf
    have hb3 : (off + k.length + v.length) + leafPayload rest < 2 ^ 32 := by
      simp [leafPayload] at hb ⊢
      omega
    have ih := writeLeafLoop_spec rest (i0 + 1) (off + k.length + v.length) p3 hleaf3 hb3
    rw [hstep, hoff']
    obtain ⟨ihslots, ihdata, ihmeta, ihcontent⟩ := ih
    -- facts about the intermediate pages
    have hslots1 : ∀ idx, idx ≠ i0 → p1.slots idx = p.slots idx := by
      intro idx hne
      rw [hp1, BPage.setPairInfo]
      simp [hne]
    have hslot1_i0 : p1.slots i0 =
        { offset := off, keySize := k.length, valueSize := v.length,
          childID := (p.slots i0).childID } := by
      rw [hp1, BPage.setPairInfo]
      simp [hleaf, u32_small hk32, u32_small hv32]
    have hdata3_low : ∀ a, a < off → p3.data a = p.data a := by
      intro a ha
      rw [hp3, hp2]
      show copyBytes (copyBytes p1.data off k) (off + k.length) v a = p.data a
      rw [copyBytes, copyBytes]
      rw [if_neg (by omega), if_neg (by omega)]
      rfl
    have hdata3_key : ∀ a, off ≤ a → a < off + k.length → p3.data a = k.getD (a - off) 0 := by
      intro a ha1 ha2
      rw [hp3, hp2]
      show copyBytes (copyBytes p1.data off k) (off + k.length) v a = _
      rw [copyBytes, copyBytes]
      rw [if_neg (by omega), if_pos (by omega)]
    have hdata3_val : ∀ a, off + k.length ≤ a → a < off + k.length + v.length →
        p3.data a = v.getD (a - (off + k.length)) 0 := by
      intro a ha1 ha2
      rw [hp3]
      show copyBytes p2.data (off + k.length) v a = _
      rw [copyBytes]
      rw [if_pos (by omega)]
    refine ⟨?_, ?_, ?_, ?_⟩
    · intro idx hidx
      rw [ihslots idx (by omega), hslots1 idx (by omega)]
    · intro a ha
      rw [ihdata a (by omega), hdata3_low a ha]
    · refine ⟨ihmeta.1, ihmeta.2.1, ihmeta.2.2⟩
    · intro j hj
      cases j with
      | zero =>
        have hslot : (writeLeafLoop rest (i0 + 1) (off + k.length + v.length) p3).slots i0 =
            { offset := off, keySize := k.length, valueSize := v.length,
              childID := (p.slots i0).childID } := by
          rw [ihslots i0 (by omega)]
          exact hslot1_i0
        constructor
        · simp only [BPage.getKeyAt, Nat.add_zero, hslot]
          have hcong : (List.range k.length).map
              (fun j => (writeLeafLoop rest (i0+1) (off + k.length + v.length) p3).data (off + j))
              = (List.range k.length).map (fun j => k.getD j 0) := by
            apply List.map_congr_left
            intro j hjmem
            have hjk := List.mem_range.mp hjmem
            rw [ihdata (off + j) (by omega), hdata3_key (off + j) (by omega) (by omega)]
            congr 1
            omega
          rw [hcong]
          exact map_getD_range k
        · simp only [BPage.getValueAt, Nat.add_zero, hslot]
          have hcong : (List.range v.length).map
              (fun j => (writeLeafLoop rest (i0+1) (off + k.length + v.length) p3).data
                (off + k.length + j))
              = (List.range v.length).map (fun j => v.getD j 0) := by
            apply List.map_congr_left
            intro j hjmem
            have hjv := List.mem_range.mp hjmem
            rw [ihdata (off + k.length + j) (by omega),
              hdata3_val (off + k.length + j) (by omega) (by omega)]
            congr 1
            omega
          rw [hcong]
          exact map_getD_range v
      | succ j' =>
        have := ihcontent j' (by simpa using hj)
        constructor
        · rw [show i0 + (j' + 1) = (i0 + 1) + j' by omega]
          exact this.1
        · rw [show i0 + (j' + 1) = (i0 + 1) + j' by omega]
          exact this.2

theorem writeInternalLoop_spec :
    ∀ (pairs : List (Bytes × Nat)) (i0 off : Nat) (p : BPage),
      p.isLeafP = false →
      off + internalPayload pairs < 2 ^ 32 →
      (∀ q ∈ pairs, q.2 < 2 ^ 32) →
      (∀ idx, idx < i0 → (writeInternalLoop pairs i0 off p).slots idx = p.slots idx) ∧
      (∀ a, a < off → (writeInternalLoop pairs i0 off p).data a = p.data a) ∧
      ((writeInternalLoop pairs i0 off p).count = p.count ∧
        (writeInternalLoop pairs i0 off p).flags = p.flags ∧
        (writeInternalLoop pairs i0 off p).index = p.index) ∧
      (∀ j, (hj : j < pairs.length) →
        (writeInternalLoop pairs i0 off p).getKeyAt (i0 + j) = (pairs.get ⟨j, hj⟩).1 ∧
        (writeInternalLoop pairs i0 off p).getChildPgid (i0 + j) = (pairs.get ⟨j, hj⟩).2)
  | [], i0, off, p, hleaf, hb, hcid => by
    refine ⟨fun _ _ => rfl, fun _ _ => rfl, ⟨rfl, rfl, rfl⟩, fun j hj => by simp at hj⟩
  | (k, cid) :: rest, i0, off, p, hleaf, hb, hcid => by
    have hk32 : k.length < 2 ^ 32 := by
      simp [internalPayload] at hb
      omega
    have hc32 : cid < 2 ^ 32 := hcid (k, cid) (List.mem_cons_self _ _)
    have hoff' : u32 (off + u32 k.length) = off + k.length := by
      rw [u32_small hk32]
      apply u32_small
      simp [internalPayload] at hb
      omega
    set p1 := p.setPairInfo i0 (u32 k.length) 0 (u32 cid) off with hp1
    set p2 : BPage := { p1 with data := copyBytes p1.data off k } with hp2
    have hstep : writeInternalLoop ((k, cid) :: rest) i0 off p =
        writeInternalLoop rest (i0 + 1) (u32 (off + u32 k.length)) p2 := rfl
    have hb2 : (off + k.length) + internalPayload rest < 2 ^ 32 := by
      simp [internalPayload] at hb ⊢
      omega
    have ih := writeInternalLoop_spec rest (i0 + 1) (off + k.length) p2 hleaf hb2
      (fun q hq => hcid q (List.mem_cons_of_mem _ hq))
    rw [hstep, hoff']
    obtain ⟨ihslots, ihdata, ihmeta, ihcontent⟩ := ih
    have hslots1 : ∀ idx, idx ≠ i0 → p1.slots idx = p.slots idx := by
      intro idx hne
      rw [hp1, BPage.setPairInfo]
      simp [hne]
    have hslot1_i0 : p1.slots i0 =
        { offset := off, keySize := k.length, valueSize := (p.slots i0).valueSize,
          childID := cid } := by
      rw [hp1, BPage.setPairInfo]
      simp [hleaf, u32_small hk32, u32_small hc32]
    have hdata2_low : ∀ a, a < off → p2.data a = p.data a := by
      intro a ha
      rw [hp2]
      show copyBytes p1.data off k a = p.data a
      rw [copyBytes]
      rw [if_neg (by omega)]
      rfl
    have hdata2_key : ∀ a, off ≤ a → a < off + k.length → p2.data a = k.getD (a - off) 0 := by
      intro a ha1 ha2
      rw [hp2]
      show copyBytes p1.data off k a = _
      rw [copyBytes]
      rw [if_pos (by omega)]
    refine ⟨?_, ?_, ?_, ?_⟩
    · intro idx hidx
      rw [ihslots idx (by omega), hslots1 idx (by omega)]
    · intro a ha
      rw [ihdata a (by omega), hdata2_low a ha]
    · exact ⟨ihmeta.1, ihmeta.2.1, ihmeta.2.2⟩
    · intro j hj
      cases j with
      | zero =>
        have hslot : (writeInternalLoop rest (i0 + 1) (off + k.length) p2).slots i0 =
            { offset := off, keySize := k.length, valueSize := (p.slots i0).valueSize,
              childID := cid } := by
          rw [ihslots i0 (by omega)]
          exact hslot1_i0
        constructor
        · simp only [BPage.getKeyAt, Nat.add_zero, hslot]
          have hcong : (List.range k.length).map
              (fun j => (writeInternalLoop rest (i0+1) (off + k.length) p2).data (off + j))
              = (List.range k.length).map (fun j => k.getD j 0) := by
            apply List.map_congr_left
            intro j hjmem
            have hjk := List.mem_range.mp hjmem
            rw [ihdata (off + j) (by omega), hdata2_key (off + j) (by omega) (by omega)]
            congr 1
            omega
          rw [hcong]
          exact map_getD_range k
        · simp [BPage.getChildPgid, Nat.add_zero, hslot]
      | succ j' =>
        have := ihcontent j' (by simpa using hj)
        constructor
        · rw [show i0 + (j' + 1) = (i0 + 1) + j' by omega]
          exact this.1
        · rw [show i0 + (j' + 1) = (i0 + 1) + j' by omega]
          exact this.2


theorem leafPayload_zip : ∀ (keys values : List Bytes), values.length = keys.length →
    leafPayload (keys.zip values) =
      ((List.range keys.length).map
        (fun i => (keys.getD i []).length + (values.getD i []).length)).sum
  | [], values, h => by simp [leafPayload]
  | k :: ks, [], h => by simp at h
  | k :: ks, v :: vs, h => by
    have ih := leafPayload_zip ks vs (by simpa using h)
    show (k.length + v.length) + leafPayload (ks.zip vs) = _
    simp only [List.length_cons]
    rw [List.range_succ_eq_map]
    simp only [List.map_cons, List.sum_cons, List.map_map]
    have h0 : List.length ((k :: ks).getD 0 []) = k.length := by simp
    have h0' : List.length ((v :: vs).getD 0 []) = v.length := by simp
    have hmap : (List.range ks.length).map
        ((fun i => List.length ((k :: ks).getD i []) + List.length ((v :: vs).getD i [])) ∘ Nat.succ)
        = (List.range ks.length).map
          (fun i => List.length (ks.getD i []) + List.length (vs.getD i [])) := by
      apply List.map_congr_left
      intro i _
      simp [Function.comp]
    rw [h0, h0', hmap, ih]

theorem internalPayload_zip : ∀ (keys : List Bytes) (cids : List Nat), cids.length = keys.length →
    internalPayload (keys.zip cids) =
      ((List.range keys.length).map (fun i => (keys.getD i []).length)).sum
  | [], cids, h => by simp [internalPayload]
  | k :: ks, [], h => by simp at h
  | k :: ks, c :: cs, h => by
    have ih := internalPayload_zip ks cs (by simpa using h)
    show k.length + internalPayload (ks.zip cs) = _
    simp only [List.length_cons]
    rw [List.range_succ_eq_map]
    simp only [List.map_cons, List.sum_cons, List.map_map]
    have h0 : List.length ((k :: ks).getD 0 []) = k.length := by simp
    have hmap : (List.range ks.length).map
        ((fun i => List.length ((k :: ks).getD i [])) ∘ Nat.succ)
        = (List.range ks.length).map (fun i => List.length (ks.getD i [])) := by
      apply List.map_congr_left
      intro i _
      simp [Function.comp]
    rw [h0, hmap, ih]

/-- Claim C8.  Encoding a valid node onto a (fresh) page and decoding
that page reproduces the node: for every node whose per-record lists
are consistent, whose keys are strictly ascending, whose serialized
size fits the page and whose child ids are 32-bit, `ReadPage` after
`WritePage` yields the same key sequence, the same values (for a leaf)
and the same child page ids (for an internal node), with the leaf flag
preserved. -/
theorem encode_decode_roundtrip (n : Node) (ix : Nat) (parent : Option Nat)
    (hlen : if n.isLeaf then n.values.length = n.keys.length
            else n.cids.length = n.keys.length)
    (hsize : n.size ≤ pageSize)
    (_hasc : n.keys.Chain' (fun a b => bytesCompare a b = Ordering.lt))
    (hcids : ∀ c ∈ n.cids, c < 2 ^ 32) :
    (nodeReadBPage (nodeWriteBPage n (blankPage ix)) parent).isLeaf = n.isLeaf ∧
    (nodeReadBPage (nodeWriteBPage n (blankPage ix)) parent).keys = n.keys ∧
    (nodeReadBPage (nodeWriteBPage n (blankPage ix)) parent).values =
      (if n.isLeaf then n.values else []) ∧
    (nodeReadBPage (nodeWriteBPage n (blankPage ix)) parent).cids =
      (if n.isLeaf then [] else n.cids) := by
  cases hL : n.isLeaf with
  | true =>
    have hlen' : n.values.length = n.keys.length := by
      rw [hL] at hlen
      simpa using hlen
    have hplen : (n.keys.zip n.values).length = n.keys.length := by
      simp [hlen']
    have hS : ((List.range n.keys.length).map
        (fun i => (n.keys.getD i []).length +
          if n.isLeaf then (n.values.getD i []).length else 0)).sum
        = leafPayload (n.keys.zip n.values) := by
      rw [leafPayload_zip n.keys n.values hlen']
      apply congrArg List.sum
      apply List.map_congr_left
      intro i _
      rw [hL]
      simp
    have hsz : n.size = headerSize + pairInfoSize * n.keys.length +
        leafPayload (n.keys.zip n.values) := by
      rw [Node.size, Node.keyCount, hS]
    have hb1 : n.keys.length * pairInfoSize +
        leafPayload (n.keys.zip n.values) < 2 ^ 32 := by
      rw [hsz] at hsize
      simp only [headerSize, pairInfoSize, pageSize] at hsize ⊢
      omega
    have hoff : u32 (n.keys.length * pairInfoSize) = n.keys.length * pairInfoSize :=
      u32_small (by omega)
    have hwrite : nodeWriteBPage n (blankPage ix) =
        writeLeafLoop (n.keys.zip n.values) 0 (n.keys.length * pairInfoSize)
          { blankPage ix with
            count := n.keys.length
            flags := (blankPage ix).flags ||| 8 } := by
      simp [nodeWriteBPage, hL, hoff]
    have hleafP : ({ blankPage ix with
        count := n.keys.length
        flags := (blankPage ix).flags ||| 8 } : BPage).isLeafP = true := by
      simp [BPage.isLeafP, blankPage]
    obtain ⟨hslots, hdata, ⟨hcount, hflags, hindex⟩, hcontent⟩ :=
      writeLeafLoop_spec (n.keys.zip n.values) 0 (n.keys.length * pairInfoSize)
        { blankPage ix with
          count := n.keys.length
          flags := (blankPage ix).flags ||| 8 }
        hleafP (by omega)
    rw [hwrite]
    set W := writeLeafLoop (n.keys.zip n.values) 0 (n.keys.length * pairInfoSize)
      { blankPage ix with
        count := n.keys.length
        flags := (blankPage ix).flags ||| 8 } with hW
    have hWleaf : W.isLeafP = true := by
      rw [BPage.isLeafP, hflags]
      exact hleafP
    have hWcount : W.count = n.keys.length := hcount
    have hkeys : (List.range W.count).map W.getKeyAt = n.keys := by
      rw [hWcount]
      apply List.ext_getElem
      · simp
      · intro i h1 h2
        simp only [List.getElem_map, List.getElem_range]
        have hc := (hcontent i (by omega)).1
        rw [Nat.zero_add] at hc
        rw [hc]
        simp [List.get_eq_getElem, List.getElem_zip]
    have hvals : (List.range W.count).map W.getValueAt = n.values := by
      rw [hWcount]
      apply List.ext_getElem
      · simp [hlen']
      · intro i h1 h2
        simp only [List.getElem_map, List.getElem_range]
        have hc := (hcontent i (by omega)).2
        rw [Nat.zero_add] at hc
        rw [hc]
        simp [List.get_eq_getElem, List.getElem_zip]
    refine ⟨?_, ?_, ?_, ?_⟩
    · show W.isLeafP = true
      exact hWleaf
    · show (List.range W.count).map W.getKeyAt = n.keys
      exact hkeys
    · show (if W.isLeafP then (List.range W.count).map W.getValueAt else []) = _
      rw [hWleaf]
      simpa using hvals
    · show (if W.isLeafP then [] else (List.range W.count).map W.getChildPgid) = _
      rw [hWleaf]
      simp
  | false =>
    have hlen' : n.cids.length = n.keys.length := by
      rw [hL] at hlen
      simpa using hlen
    have hplen : (n.keys.zip n.cids).length = n.keys.length := by
      simp [hlen']
    have hS : ((List.range n.keys.length).map
        (fun i => (n.keys.getD i []).length +
          if n.isLeaf then (n.values.getD i []).length else 0)).sum
        = internalPayload (n.keys.zip n.cids) := by
      rw [internalPayload_zip n.keys n.cids hlen']
      apply congrArg List.sum
      apply List.map_congr_left
      intro i _
      rw [hL]
      simp
    have hsz : n.size = headerSize + pairInfoSize * n.keys.length +
        internalPayload (n.keys.zip n.cids) := by
      rw [Node.size, Node.keyCount, hS]
    have hb1 : n.keys.length * pairInfoSize +
        internalPayload (n.keys.zip n.cids) < 2 ^ 32 := by
      rw [hsz] at hsize
      simp only [headerSize, pairInfoSize, pageSize] at hsize ⊢
      omega
    have hoff : u32 (n.keys.length * pairInfoSize) = n.keys.length * pairInfoSize :=
      u32_small (by omega)
    have hwrite : nodeWriteBPage n (blankPage ix) =
        writeInternalLoop (n.keys.zip n.cids) 0 (n.keys.length * pairInfoSize)
          { blankPage ix with
            count := n.keys.length
            flags := (blankPage ix).flags ||| 4 } := by
      simp [nodeWriteBPage, hL, hoff]
    have hintP : ({ blankPage ix with
        count := n.keys.length
        flags := (blankPage ix).flags ||| 4 } : BPage).isLeafP = false := by
      simp [BPage.isLeafP, blankPage]
      decide
    have hczip : ∀ q ∈ n.keys.zip n.cids, q.2 < 2 ^ 32 := by
      intro q hq
      rcases q with ⟨a, b⟩
      exact hcids b (List.of_mem_zip hq).2
    obtain ⟨hslots, hdata, ⟨hcount, hflags, hindex⟩, hcontent⟩ :=
      writeInternalLoop_spec (n.keys.zip n.cids) 0 (n.keys.length * pairInfoSize)
        { blankPage ix with
          count := n.keys.length
          flags := (blankPage ix).flags ||| 4 }
        hintP (by omega) hczip
    rw [hwrite]
    set W := writeInternalLoop (n.keys.zip n.cids) 0 (n.keys.length * pairInfoSize)
      { blankPage ix with
        count := n.keys.length
        flags := (blankPage ix).flags ||| 4 } with hW
    have hWleaf : W.isLeafP = false := by
      rw [BPage.isLeafP, hflags]
      exact hintP
    have hWcount : W.count = n.keys.length := hcount
    have hkeys : (List.range W.count).map W.getKeyAt = n.keys := by
      rw [hWcount]
      apply List.ext_getElem
      · simp
      · intro i h1 h2
        simp only [List.getElem_map, List.getElem_range]
        have hc := (hcontent i (by omega)).1
        rw [Nat.zero_add] at hc
        rw [hc]
        simp [List.get_eq_getElem, List.getElem_zip]
    have hcs : (List.range W.count).map W.getChildPgid = n.cids := by
      rw [hWcount]
      apply List.ext_getElem
      · simp [hlen']
      · intro i h1 h2
        simp only [List.getElem_map, List.getElem_range]
        have hc := (hcontent i (by omega)).2
        rw [Nat.zero_add] at hc
        rw [hc]
        simp [List.get_eq_getElem, List.getElem_zip]
    refine ⟨?_, ?_, ?_, ?_⟩
    · show W.isLeafP = false
      exact hWleaf
    · show (List.range W.count).map W.getKeyAt = n.keys
      exact hkeys
    · show (if W.isLeafP then (List.range W.count).map W.getValueAt else []) = _
      rw [hWleaf]
      simp
    · show (if W.isLeafP then [] else (List.range W.count).map W.getChildPgid) = _
      rw [hWleaf]
      simpa using hcs


/-- Witness for C8 at a two-key leaf. -/
theorem encode_decode_roundtrip_witness :
    (nodeReadBPage (nodeWriteBPage c8node (blankPage 3)) (some 1)).isLeaf = c8node.isLeaf ∧
    (nodeReadBPage (nodeWriteBPage c8node (blankPage 3)) (some 1)).keys = c8node.keys ∧
    (nodeReadBPage (nodeWriteBPage c8node (blankPage 3)) (some 1)).values =
      (if c8node.isLeaf then c8node.values else []) ∧
    (nodeReadBPage (nodeWriteBPage c8node (blankPage 3)) (some 1)).cids =
      (if c8node.isLeaf then [] else c8node.cids) :=
  encode_decode_roundtrip c8node 3 (some 1) (by decide) (by decide)
    (by simp [c8node, List.chain'_cons, bytesCompare]) (by decide)

/-! ## Claim theorems -/

/-- Claim C1.  The claim states that after `set(K, V)` in a writable
transaction and a successful `commit()`, a fresh reader's `get(K)`
returns `V`.  Evaluating the embedded pipeline on a fresh store with
`set("a", "1")` refutes it: `commit` reports success, yet the fresh
reader's `get("a")` returns not-found.  The spill pass never writes the
non-overfilled root leaf (`Node.Split` returns the empty list for it)
and `Commit` never rewrites the meta page, so the insert never reaches
the store — the repository's own `TestWriteTx` asserts the claimed
behaviour and fails on this code. -/
theorem set_commit_get_returns_not_found :
    scenSetCommitGet = .ok (true, true, false, []) := rfl

/-- Claim C2.  The claim states that `Commit` writes the dirty pages in
ascending page order at `id·PAGE_SIZE` for `(overflow+1)·PAGE_SIZE`
bytes, fsyncs, writes the meta page last, and fsyncs again.  The
embedded commit of `set("a","1")` emits exactly one event: the dirty
(freelist) page write at page 3 for 40 pages — sorted and sized as
claimed — but there is no `fsync` event and no write of page 0 (the
meta page) at all: `Tx.write` contains no `Sync` call and `Commit`
never writes a meta page. -/
theorem commit_trace_has_no_fsync_and_no_meta_write :
    scenCommitEvents = .ok (true, [Ev.writeAt (3 * pageSize) (40 * pageSize)]) ∧
    ([Ev.writeAt (3 * pageSize) (40 * pageSize)].all
      (fun ev => ev != Ev.fsync &&
        (match ev with
         | Ev.writeAt pos _ => pos != 0
         | _ => true))) = true :=
  ⟨rfl, by decide⟩

set_option maxRecDepth 40000 in
/-- Claim C3.  The claim states that the spill pass obtains from
`Node.Split` the one-or-more resulting siblings and writes each of
them; in particular an overfilled leaf (size `PAGE_SIZE+1`, key count
`5 > MAX_KEYS`) splits into exactly two nodes, both returned by
`Split`.  On such a leaf `splitTwo` does produce two nodes (left keys
`[0],[1]`, right keys `[2],[3],[4]`), but `Split`'s loop appends a node
only when the following `splitTwo` succeeds, so the final sibling is
dropped: `Split` returns only the left node, and `spillNode` (which
iterates exactly over `Split`'s result) never writes the right one. -/
theorem split_returns_only_left_sibling :
    c3leaf.size = pageSize + 1 ∧ c3leaf.keyCount = 5 ∧ maxKeys < c3leaf.keyCount ∧
    (c3leaf.splitTwoF.map (fun r => (r.1.keys, r.2.1.keys))) =
      some ([[0], [1]], [[2], [3], [4]]) ∧
    c3leaf.split.map Node.keys = [[[0], [1]]] := by
  refine ⟨by decide, by decide, by decide, by decide, by decide⟩

/-- Claim C4.  The claim states `begin_write` fails exactly while
another writable transaction is live, and that a successful commit
clears the writable-tx slot so a later `begin_write` succeeds.  The
embedded run shows: the first `begin_write` succeeds, a second one
while the first is open fails (this half is as claimed), the commit
succeeds — and a third `begin_write` after the commit STILL fails,
because `Tx.close()` is an empty stub and nothing ever clears
`db.wtx`. -/
theorem begin_write_fails_even_after_commit :
    scenTwoWriters = .ok (true, false, true, false) := rfl

/-- Claim C5, counterexample.  The claim's worked example says
allocating `n = 3` from slots `{1,3,4,5,6,7}` returns `3` and leaves
`{1,7}`.  The code removes exactly the three ids `3,4,5` of the first
length-3 run and leaves `{1,6,7}`. -/
theorem allocate_example_leaves_1_6_7 :
    flAllocate [1, 3, 4, 5, 6, 7] 3 = some (3, [1, 6, 7]) ∧
    (some ((3 : Int), ([1, 6, 7] : List Int)) ≠ some ((3 : Int), ([1, 7] : List Int))) := by
  exact ⟨by decide, by decide⟩

/-- Claim C5, amended.  `allocate(n)` scans the ascending slots list
left to right, resetting the contiguous run whenever the next id is not
`prev+1`; at the first position `i₀` where the run reaches length
exactly `n` it removes those `n` ids (`slots[i₀+1-n .. i₀]`) and
returns the smallest of them; if no run reaches length `n` it fails.
In particular allocating `n = 3` from `{1,3,4,5,6,7}` returns `3` and
leaves `{1,6,7}` (not `{1,7}` as originally claimed). -/
theorem allocate_first_fit (ids : List Int) (n : Nat) :
    ((∀ j, j < ids.length → ¬ firesAt ids n j) → flAllocate ids n = none) ∧
    (∀ i₀, i₀ < ids.length → firesAt ids n i₀ →
      (∀ j, j < i₀ → ¬ firesAt ids n j) →
      flAllocate ids n =
        some (ids.getD (i₀ + 1 - n) 0, ids.take (i₀ + 1 - n) ++ ids.drop (i₀ + 1))) ∧
    flAllocate [1, 3, 4, 5, 6, 7] 3 = some (3, [1, 6, 7]) := by
  have h := flAllocGo_from ids n ids.length 0 0 0 (by omega) (by omega) (Or.inl rfl)
  refine ⟨?_, ?_, by decide⟩
  · intro hnone
    exact h.1 (fun j _ hj2 => hnone j hj2)
  · intro i₀ h2 hf0 hmin
    exact h.2 i₀ (by omega) h2 hf0 (fun j _ hj2 => hmin j hj2)

/-- Witness for the amended C5 theorem at `ids = {1,3,4,5,6,7}`,
`n = 3`, first firing position `i₀ = 3`. -/
theorem allocate_first_fit_witness :
    flAllocate [1, 3, 4, 5, 6, 7] 3 = some (3, [1, 6, 7]) :=
  (allocate_first_fit [1, 3, 4, 5, 6, 7] 3).2.1 3 (by decide) (by decide) (by decide)

/-- Claim C6.  A node is treated as underfilled by the merge pass
exactly when `keys_count < 2` or `size < 1024` (= `PAGE_SIZE·0.25`);
a visited node that is not underfilled is left unchanged apart from its
`balanced` flag.  Both parts hold — but the claim's consequence "and
therefore merged into a sibling" fails for leaves: merging an
underfilled leaf into its sibling runs the reparent loop over the
leaf's key count, and `Node.GetChildID` panics on a leaf, so the
embedded merge of cached leaf `{"m"}` (page 3, 1 key) into its sibling
errors out instead of merging. -/
theorem underfill_threshold_and_leaf_merge_panic :
    (∀ n : Node, n.underfill ↔ (n.keyCount < 2 ∨ n.size < 1024)) ∧
    (∀ (fuel : Nat) (db : DBState) (tx : TxState) (pid : Nat) (n : Node),
      alookup tx.nodes pid = some n → n.balanced = false → ¬n.underfill →
      mergeVisit (fuel + 1) db tx pid =
        .ok (db, { tx with nodes := aset tx.nodes pid { n with balanced := true } })) ∧
    (leaf3.underfill = true ∧
      mergeVisit 10 db6 tx6 3 = .error "get child at leaf node") := by
  refine ⟨?_, ?_, by decide, rfl⟩
  · intro n
    simp [Node.underfill, minKeys, underfillThreshold]
  · intro fuel db tx pid n h hb hu
    unfold mergeVisit
    rw [h]
    have hu' : ¬({ n with balanced := true } : Node).underfill := by
      rw [underfill_balanced]
      exact hu
    simp [hb, hu']

set_option maxRecDepth 40000 in
/-- Witness for C6's frame part: visiting the non-underfilled cached
leaf of `txC6w` only sets its `balanced` flag. -/
theorem underfill_frame_witness :
    mergeVisit 1 db6 txC6w 4 =
      .ok (db6, { txC6w with nodes := aset txC6w.nodes 4 { nodeC6w with balanced := true } }) :=
  underfill_threshold_and_leaf_merge_panic.2.1 0 db6 txC6w 4 nodeC6w (by decide) (by decide)
    (by decide)

/-- Claim C7.  The claim states `set` returns `KeyTooLarge` for keys
over 1 MiB and `ValueTooLarge` for values over 1 GiB.  `Tx.Set`'s
return type `(bool, Value)` has no error channel at all and no code
path compares key or value lengths against `MaxKeyBytes`/`MaxValueBytes`
(the constants are declared and never used): setting a `2^20+1`-byte
key with a `2^30+1`-byte value simply inserts the pair. -/
theorem set_accepts_oversized_key_and_value :
    c7key.length > maxKeyBytes ∧ c7val.length > maxValueBytes ∧
    btSet 1 (.leaf [] [] false false) c7key c7val =
      .ok ((false, []), .leaf [c7key] [c7val] false false) := by
  refine ⟨?_, ?_, rfl⟩
  · rw [show c7key.length = 2 ^ 20 + 1 from List.length_replicate _ _]
    norm_num [maxKeyBytes]
  · rw [show c7val.length = 2 ^ 30 + 1 from List.length_replicate _ _]
    norm_num [maxValueBytes]

/-- Claim C9.  The claim states `tx.get` is total: any key yields the
stored value or not-found, with the descent's child index always in
bounds.  For a key strictly greater than every separator of an internal
node (`"z" > "a", "m"`), `Node.Search` returns `len(keys)` and
`tx.getChildAt` panics on the out-of-bounds index instead of returning
not-found; a present key (`"m"`) is still found. -/
theorem get_panics_beyond_last_separator :
    btGet 10 t9 [122] = .error "Invalid child index" ∧
    btGet 10 t9 [109] = .ok (true, [51]) :=
  ⟨rfl, rfl⟩

theorem btSet_found_frame : ∀ (fuel : Nat) (t : BTree) (key value old : Bytes) (t' : BTree),
    btSet fuel t key value = .ok ((true, old), t') →
    ∃ path keys values bal sp i,
      navigate t path = some (.leaf keys values bal sp) ∧
      searchKeys keys key = (true, i) ∧
      values.get? i = some old ∧
      t' = replaceAt t path (.leaf keys (values.set i value) bal sp)
  | 0, t, key, value, old, t', h => by
    simp [btSet] at h
  | fuel + 1, .leaf keys values bal sp, key, value, old, t', h => by
    rcases hs : searchKeys keys key with ⟨found, i⟩
    rw [btSet, hs] at h
    dsimp only at h
    cases found with
    | true =>
      rw [if_pos rfl] at h
      cases hv : values.get? i with
      | some o =>
        rw [hv] at h
        simp only [Except.ok.injEq, Prod.mk.injEq] at h
        obtain ⟨⟨_, hold⟩, ht⟩ := h
        exact ⟨[], keys, values, bal, sp, i, by simp [navigate], hs,
          by rw [hv, hold], by simp [replaceAt, ← ht]⟩
      | none =>
        rw [hv] at h
        simp at h
    | false =>
      by_cases hgt : i > keys.length
      · simp [hgt] at h
      · simp only [Bool.false_eq_true, if_false, hgt] at h
        simp at h
  | fuel + 1, .internal keys children bal sp, key, value, old, t', h => by
    rcases hs : searchKeys keys key with ⟨found0, i⟩
    rw [btSet, hs] at h
    dsimp only at h
    by_cases hlt : i < keys.length
    · rw [if_pos hlt] at h
      cases hc : children.get? i with
      | some c =>
        rw [hc] at h
        dsimp only at h
        rcases hrec : btSet fuel c key value with e | r
        · rw [hrec] at h
          simp [Except.map] at h
        · rw [hrec] at h
          rcases r with ⟨res, c'⟩
          simp only [Except.map, Except.ok.injEq, Prod.mk.injEq] at h
          obtain ⟨hres, ht⟩ := h
          rw [hres] at hrec
          obtain ⟨path, ks, vs, b, s, j, hnav, hsk, hget, hrepl⟩ :=
            btSet_found_frame fuel c key value old c' hrec
          have hc' : children[i]? = some c := by
            rw [← List.get?_eq_getElem?]
            exact hc
          refine ⟨i :: path, ks, vs, b, s, j, ?_, hsk, hget, ?_⟩
          · simp [navigate, hc', hnav]
          · rw [← ht]
            simp [replaceAt, hc', ← hrepl]
      | none =>
        rw [hc] at h
        simp at h
    · rw [if_neg hlt] at h
      simp at h


/-- Claim C10.  When `Set(key, value)` finds the key already present in
the leaf reached by the descent, it replaces only that leaf's value at
the matching index and returns the old value: the rest of the tree —
every other node, the leaf's keys, its `balanced`/`spilled` flags — and
the transaction's dirty-page table and meta are unchanged (the result
is exactly `replaceAt` of the reached leaf with only `values.set i`). -/
theorem set_found_replaces_only_that_value (fuel : Nat) (tx : TxView)
    (key value old : Bytes) (tx' : TxView)
    (h : txViewSet fuel tx key value = .ok ((true, old), tx')) :
    tx'.meta = tx.meta ∧ tx'.dirty = tx.dirty ∧
    ∃ path keys values' bal sp i,
      navigate tx.root path = some (.leaf keys values' bal sp) ∧
      searchKeys keys key = (true, i) ∧
      values'.get? i = some old ∧
      tx'.root = replaceAt tx.root path (.leaf keys (values'.set i value) bal sp) := by
  rcases hb : btSet fuel tx.root key value with e | r
  · rw [txViewSet, hb] at h
    simp [Except.map] at h
  · rw [txViewSet, hb] at h
    rcases r with ⟨res, t2⟩
    simp only [Except.map, Except.ok.injEq, Prod.mk.injEq] at h
    obtain ⟨hres, htx⟩ := h
    rw [hres] at hb
    subst htx
    obtain ⟨path, ks, vs, b, s, j, hnav, hsk, hget, hrepl⟩ :=
      btSet_found_frame fuel tx.root key value old t2 hb
    exact ⟨rfl, rfl, path, ks, vs, b, s, j, hnav, hsk, hget, hrepl⟩

/-- Witness for C10: overwriting `"a" ↦ "1"` with `"2"` in the one-leaf
transaction replaces exactly that value. -/
theorem set_found_replaces_only_that_value_witness :
    ({ txC10 with root := BTree.leaf [[97]] [[50]] false false } : TxView).meta = txC10.meta ∧
    ({ txC10 with root := BTree.leaf [[97]] [[50]] false false } : TxView).dirty = txC10.dirty ∧
    ∃ path keys values' bal sp i,
      navigate txC10.root path = some (.leaf keys values' bal sp) ∧
      searchKeys keys [97] = (true, i) ∧
      values'.get? i = some [49] ∧
      ({ txC10 with root := BTree.leaf [[97]] [[50]] false false } : TxView).root =
        replaceAt txC10.root path (.leaf keys (values'.set i [50]) bal sp) :=
  set_found_replaces_only_that_value 1 txC10 [97] [50] [49]
    { txC10 with root := BTree.leaf [[97]] [[50]] false false } rfl

end Mk
